import Mathlib

/-!
Verification of the two JSON-aggregation scripts of this repository:
`merge.py` (Key-Union aggregator) and `merge_json.py` (List-Collection
aggregator).  Both scripts enumerate a directory, filter entries by the
literal suffix `".json"`, parse each candidate file with `json.load`,
accumulate, and serialize the accumulator with `json.dump(..., indent=2)`.

Modelling decisions (shallow embedding):
* A JSON document is the inductive `Json` below.  Python dicts produced by
  `json.load` are insertion-ordered maps with unique string keys; they are
  modelled as association lists (`List (String × Json)`), and the dict
  operations used by the scripts (`d[k]` lookup, `update`, `setdefault`)
  are modelled by `dictGet` / `dictSet` / `dictUpdate` below, which keep an
  existing key's position and append new keys at the end, exactly as
  CPython dicts do.  JSON numbers are modelled as integers; no claim
  depends on float formatting.
* A directory is the list of its entries in `os.listdir` order.  Each
  entry is either a regular file — carrying the outcome of `json.load` on
  its bytes: a parsed `Json` value or a `JSONDecodeError` message — or a
  subdirectory.
* `open()` on a subdirectory raises `IsADirectoryError`, and
  `list.extend` fetched from a non-list object raises `AttributeError`;
  neither is caught by the scripts (they catch only `JSONDecodeError`),
  so both abort the run.  Aborts are modelled with `Except`.
* `print` diagnostics are collected in order in a list of strings.
-/

/-- A JSON value, as produced by Python's `json.load`.  Objects are
insertion-ordered association lists with (by construction of the parser)
unique keys; numbers are modelled as integers. -/
inductive Json where
  | null : Json
  | bool (b : Bool) : Json
  | num (n : Int) : Json
  | str (s : String) : Json
  | arr (elems : List Json) : Json
  | obj (entries : List (String × Json)) : Json

/-- `isinstance(data, list)` — used only to state claims about the shape of
the reserved key's value. -/
def Json.isArr : Json → Bool
  | .arr _ => true
  | _ => false

/-- A top-level value that is neither a mapping nor a sequence: the shapes
`merge.py` has no branch for. -/
def Json.isScalar : Json → Bool
  | .obj _ => false
  | .arr _ => false
  | _ => true

/-- Python dict lookup `d[k]` / `d.get(k)` on an insertion-ordered dict:
the unique (first) entry with key `k`, if any. -/
def dictGet : List (String × Json) → String → Option Json
  | [], _ => none
  | (k', v) :: ps, k => if k' = k then some v else dictGet ps k

/-- Python dict assignment `d[k] = v`: replace the value in place if the
key exists, otherwise append the new binding at the end. -/
def dictSet : List (String × Json) → String → Json → List (String × Json)
  | [], k, v => [(k, v)]
  | (k', v') :: ps, k, v =>
      if k' = k then (k, v) :: ps else (k', v') :: dictSet ps k v

/-- Python `d.update(src)`: assign every binding of `src`, in order,
into `d`. -/
def dictUpdate (d src : List (String × Json)) : List (String × Json) :=
  src.foldl (fun a p => dictSet a p.1 p.2) d

/-- `filename.endswith(".json")` — literal, case-sensitive suffix test. -/
def hasJsonExt (name : String) : Bool :=
  ".json".data.isSuffixOf name.data

/-- Outcome of `json.load` on a regular file's bytes. -/
inductive Content where
  | parsed (j : Json) : Content
  | invalid (msg : String) : Content

/-- A directory entry as enumerated by `os.listdir`: a regular file with
the outcome of parsing it, or a subdirectory. -/
inductive Entry where
  | file (name : String) (content : Content) : Entry
  | dir (name : String) : Entry

/-- The name of a directory entry. -/
def Entry.name : Entry → String
  | .file n _ => n
  | .dir n => n

/-- Uncaught exceptions that abort a run: `open()` on a directory raises
`IsADirectoryError`; `.extend` on a value that is not a list raises
`AttributeError`.  The scripts catch only `json.JSONDecodeError`. -/
inductive RunError where
  | isADirectoryError (name : String) : RunError
  | attributeError : RunError

/-- State of `merge.py` at the top of its loop: the accumulator dict
`merged_data` and the diagnostics printed so far, in order. -/
structure MergeState where
  merged_data : List (String × Json)
  diags : List String

/-- The diagnostic `merge.py` prints for an invalid file:
`f"Skipping {filename}, invalid JSON: {e}"`. -/
def skipMsg (name msg : String) : String :=
  "Skipping " ++ name ++ ", invalid JSON: " ++ msg

/-- One iteration of the loop of `merge.py` on one directory entry:
extension filter, open, parse, then `update` for dicts and
`setdefault("merged_list", []).extend` for lists; `JSONDecodeError` is
caught and reported, scalars fall through to no branch.  Returns the new
accumulator and the diagnostics emitted for this entry. -/
def mergeBody (acc : List (String × Json)) :
    Entry → Except RunError (List (String × Json) × List String)
  | .dir n =>
      if hasJsonExt n then .error (.isADirectoryError n) else .ok (acc, [])
  | .file n c =>
      if hasJsonExt n then
        match c with
        | .invalid m => .ok (acc, [skipMsg n m])
        | .parsed (.obj kvs) => .ok (dictUpdate acc kvs, [])
        | .parsed (.arr xs) =>
            match dictGet acc "merged_list" with
            | some (.arr ys) =>
                .ok (dictSet acc "merged_list" (.arr (ys ++ xs)), [])
            | some _ => .error .attributeError
            | none => .ok (dictSet acc "merged_list" (.arr xs), [])
        | .parsed _ => .ok (acc, [])
      else .ok (acc, [])

/-- The loop of `merge.py` over the remaining entries, from a given
accumulator and list of already-printed diagnostics. -/
def mergeProcess (acc : List (String × Json)) (diags : List String) :
    List Entry → Except RunError MergeState
  | [] => .ok ⟨acc, diags⟩
  | e :: es =>
      match mergeBody acc e with
      | .ok (a, ds) => mergeProcess a (diags ++ ds) es
      | .error err => .error err

/-- A full run of `merge.py` over a directory listing. -/
def mergeRun (es : List Entry) : Except RunError MergeState :=
  mergeProcess [] [] es

/-- State of `merge_json.py` at the top of its loop: the list
`all_plans` and the diagnostics printed so far. -/
structure MergeJsonState where
  all_plans : List Json
  diags : List String

/-- The diagnostic `merge_json.py` prints for an invalid file:
`f"❌ Error in {filename}: {e}"`. -/
def errMsg (name msg : String) : String :=
  "❌ Error in " ++ name ++ ": " ++ msg

/-- One iteration of the loop of `merge_json.py`: extension filter, open,
parse, append the whole parsed value; `JSONDecodeError` is caught and
reported.  `open()` sits inside the `try`, but `IsADirectoryError` is not
a `JSONDecodeError`, so it still propagates. -/
def mergeJsonBody (plans : List Json) :
    Entry → Except RunError (List Json × List String)
  | .dir n =>
      if hasJsonExt n then .error (.isADirectoryError n) else .ok (plans, [])
  | .file n c =>
      if hasJsonExt n then
        match c with
        | .invalid m => .ok (plans, [errMsg n m])
        | .parsed j => .ok (plans ++ [j], [])
      else .ok (plans, [])

/-- The loop of `merge_json.py` over the remaining entries. -/
def mergeJsonProcess (plans : List Json) (diags : List String) :
    List Entry → Except RunError MergeJsonState
  | [] => .ok ⟨plans, diags⟩
  | e :: es =>
      match mergeJsonBody plans e with
      | .ok (p, ds) => mergeJsonProcess p (diags ++ ds) es
      | .error err => .error err

/-- A full run of `merge_json.py` over a directory listing. -/
def mergeJsonRun (es : List Entry) : Except RunError MergeJsonState :=
  mergeJsonProcess [] [] es

/-! ### Serialization: `json.dump(value, out, indent=2)`

Python's encoder with `indent=2` and default `ensure_ascii=True`:
empty containers render as `{}` / `[]`; non-empty containers put each
item on its own line indented two spaces deeper, separated by `,`, with
`: ` between a key and its value.  Characters outside printable ASCII
are escaped as `\uXXXX` (surrogate pairs above the BMP). -/

/-- One lowercase hexadecimal digit. -/
def hexDigitChar (n : Nat) : Char :=
  if n < 10 then Char.ofNat (n + 48) else Char.ofNat (n + 87)

/-- Four lowercase hexadecimal digits, big-endian. -/
def hex4 (n : Nat) : String :=
  String.mk [hexDigitChar (n / 4096 % 16), hexDigitChar (n / 256 % 16),
             hexDigitChar (n / 16 % 16), hexDigitChar (n % 16)]

/-- Escape one character the way Python's `json` encoder does with
`ensure_ascii=True`: the seven short escapes, printable ASCII verbatim,
everything else as `\uXXXX` (a surrogate pair beyond `0xFFFF`). -/
def escapeChar (c : Char) : String :=
  if c = '"' then "\\\""
  else if c = '\\' then "\\\\"
  else if c = '\n' then "\\n"
  else if c = '\r' then "\\r"
  else if c = '\t' then "\\t"
  else if c.toNat = 8 then "\\b"
  else if c.toNat = 12 then "\\f"
  else if 32 ≤ c.toNat ∧ c.toNat ≤ 126 then String.singleton c
  else if c.toNat < 65536 then "\\u" ++ hex4 c.toNat
  else "\\u" ++ hex4 (55296 + (c.toNat - 65536) / 1024) ++
       "\\u" ++ hex4 (56320 + (c.toNat - 65536) % 1024)

/-- A JSON string literal: the escaped characters between quotes. -/
def encodeString (s : String) : String :=
  "\"" ++ String.join (s.data.map escapeChar) ++ "\""

/-- `indent=2` padding at nesting level `lvl`. -/
def indentAt (lvl : Nat) : String :=
  String.join (List.replicate lvl "  ")

mutual

/-- Render a JSON value at nesting level `lvl`, as `json.dump` with
`indent=2` does. -/
def dumps (lvl : Nat) : Json → String
  | .null => "null"
  | .bool true => "true"
  | .bool false => "false"
  | .num n => toString n
  | .str s => encodeString s
  | .arr [] => "[]"
  | .arr (x :: xs) =>
      "[\n" ++ dumpsArr (lvl + 1) x xs ++ "\n" ++ indentAt lvl ++ "]"
  | .obj [] => "{}"
  | .obj ((k, v) :: ps) =>
      "\x7b\n" ++ dumpsObj (lvl + 1) k v ps ++ "\n" ++ indentAt lvl ++ "\x7d"
termination_by j => sizeOf j

/-- Render the items of a non-empty array, one per line. -/
def dumpsArr (lvl : Nat) (x : Json) : List Json → String
  | [] => indentAt lvl ++ dumps lvl x
  | y :: ys => indentAt lvl ++ dumps lvl x ++ ",\n" ++ dumpsArr lvl y ys
termination_by ys => sizeOf x + sizeOf ys

/-- Render the members of a non-empty object, one per line. -/
def dumpsObj (lvl : Nat) (k : String) (v : Json) :
    List (String × Json) → String
  | [] => indentAt lvl ++ encodeString k ++ ": " ++ dumps lvl v
  | (k2, v2) :: qs => indentAt lvl ++ encodeString k ++ ": " ++ dumps lvl v ++
               ",\n" ++ dumpsObj lvl k2 v2 qs
termination_by qs => sizeOf v + sizeOf qs

end

/-- The bytes `merge.py` writes to `merged_output.json`: the serialized
accumulator if the run completes, nothing if it aborts (the script only
reaches `json.dump` after the loop). -/
def mergeOutputFile (es : List Entry) : Option String :=
  match mergeRun es with
  | .ok st => some (dumps 0 (.obj st.merged_data))
  | .error _ => none

/-- The bytes `merge_json.py` writes to `Data/merged_plans.json`. -/
def mergeJsonOutputFile (es : List Entry) : Option String :=
  match mergeJsonRun es with
  | .ok st => some (dumps 0 (.arr st.all_plans))
  | .error _ => none

/-- The count in the completion message of `merge_json.py`:
`len(all_plans)` in `f"✅ Merged {len(all_plans)} files into ..."`. -/
def mergeJsonCount (st : MergeJsonState) : Nat :=
  st.all_plans.length

/-! ### Views of a directory listing used to state the claims -/

/-- The diagnostics `merge.py` prints over a whole listing: one line per
`.json`-named regular file whose content fails to parse, in order. -/
def mergeDiagsOf : List Entry → List String
  | [] => []
  | .file n (.invalid m) :: es =>
      if hasJsonExt n then skipMsg n m :: mergeDiagsOf es else mergeDiagsOf es
  | _ :: es => mergeDiagsOf es

/-- The `.json`-named regular files that parse successfully, in order —
the entries an abort-free run actually merges. -/
def validJsonFiles : List Entry → List Entry
  | [] => []
  | .file n (.parsed j) :: es =>
      if hasJsonExt n then .file n (.parsed j) :: validJsonFiles es
      else validJsonFiles es
  | _ :: es => validJsonFiles es

/-- The parsed values `merge_json.py` appends: one whole value per
successfully parsed `.json` file, in listing order. -/
def mergeJsonParsedValues : List Entry → List Json
  | [] => []
  | .file n (.parsed j) :: es =>
      if hasJsonExt n then j :: mergeJsonParsedValues es
      else mergeJsonParsedValues es
  | _ :: es => mergeJsonParsedValues es

/-- The elements contributed to the reserved key: the concatenation of
the contents of all sequence-shaped `.json` files, in listing order. -/
def seqElems : List Entry → List Json
  | [] => []
  | .file n (.parsed (.arr xs)) :: es =>
      if hasJsonExt n then xs ++ seqElems es else seqElems es
  | _ :: es => seqElems es

/-- No mapping-shaped `.json` input contains the reserved key
`"merged_list"`. -/
def objsAvoidReservedKey : List Entry → Bool
  | [] => true
  | .file n (.parsed (.obj kvs)) :: es =>
      (!hasJsonExt n || (dictGet kvs "merged_list").isNone) &&
        objsAvoidReservedKey es
  | _ :: es => objsAvoidReservedKey es

/-! ### Lemmas about the dict operations -/

theorem dictGet_dictSet_self (d : List (String × Json)) (k : String) (v : Json) :
    dictGet (dictSet d k v) k = some v := by
  induction d with
  | nil => simp [dictSet, dictGet]
  | cons p ps ih =>
      obtain ⟨k', v'⟩ := p
      by_cases h : k' = k <;> simp [dictSet, dictGet, h, ih]

theorem dictGet_dictSet_ne (d : List (String × Json)) (k k' : String) (v : Json)
    (h : k' ≠ k) : dictGet (dictSet d k v) k' = dictGet d k' := by
  induction d with
  | nil => simp [dictSet, dictGet, Ne.symm h]
  | cons p ps ih =>
      obtain ⟨k2, v2⟩ := p
      by_cases h2 : k2 = k
      · subst h2
        simp [dictSet, dictGet, Ne.symm h]
      · simp [dictSet, h2, dictGet, ih]

theorem dictGet_eq_none (d : List (String × Json)) (k : String)
    (h : dictGet d k = none) : k ∉ d.map Prod.fst := by
  induction d with
  | nil => simp
  | cons p ps ih =>
      obtain ⟨k', v'⟩ := p
      by_cases h2 : k' = k
      · simp [dictGet, h2] at h
      · simp only [dictGet, if_neg h2] at h
        simpa [Ne.symm h2] using ih h

theorem dictGet_dictUpdate_of_notMem (d src : List (String × Json)) (k : String)
    (h : k ∉ src.map Prod.fst) :
    dictGet (dictUpdate d src) k = dictGet d k := by
  induction src generalizing d with
  | nil => simp [dictUpdate]
  | cons p ps ih =>
      obtain ⟨k', v'⟩ := p
      simp only [List.map_cons, List.mem_cons, not_or] at h
      have : dictUpdate d ((k', v') :: ps) = dictUpdate (dictSet d k' v') ps := rfl
      rw [this, ih _ h.2, dictGet_dictSet_ne _ _ _ _ h.1]

theorem dictGet_dictUpdate_of_get (d src : List (String × Json)) (k : String)
    (v : Json) (hnd : (src.map Prod.fst).Nodup) (h : dictGet src k = some v) :
    dictGet (dictUpdate d src) k = some v := by
  induction src generalizing d with
  | nil => simp [dictGet] at h
  | cons p ps ih =>
      obtain ⟨k', v'⟩ := p
      simp only [List.map_cons, List.nodup_cons] at hnd
      have hstep : dictUpdate d ((k', v') :: ps) = dictUpdate (dictSet d k' v') ps := rfl
      by_cases h2 : k' = k
      · subst h2
        simp only [dictGet, if_pos rfl] at h
        cases h
        rw [hstep, dictGet_dictUpdate_of_notMem _ _ _ hnd.1,
            dictGet_dictSet_self]
      · simp only [dictGet, if_neg h2] at h
        rw [hstep, ih _ hnd.2 h]

/-! ### Lemmas about the two loops -/

theorem mergeBody_not_json (acc : List (String × Json)) (e : Entry)
    (h : hasJsonExt e.name = false) : mergeBody acc e = .ok (acc, []) := by
  cases e <;> simp_all [mergeBody, Entry.name]

theorem mergeJsonBody_not_json (plans : List Json) (e : Entry)
    (h : hasJsonExt e.name = false) : mergeJsonBody plans e = .ok (plans, []) := by
  cases e <;> simp_all [mergeJsonBody, Entry.name]

/-- Inserting an entry whose processing is a no-op anywhere in the listing
does not change the result of `merge.py`'s loop. -/
theorem mergeProcess_insert_noop (e : Entry)
    (he : ∀ acc, mergeBody acc e = .ok (acc, []))
    (es1 es2 : List Entry) (acc : List (String × Json)) (diags : List String) :
    mergeProcess acc diags (es1 ++ e :: es2) =
      mergeProcess acc diags (es1 ++ es2) := by
  induction es1 generalizing acc diags with
  | nil => simp [mergeProcess, he]
  | cons a es1 ih =>
      simp only [List.cons_append, mergeProcess]
      cases mergeBody acc a with
      | ok p => exact ih p.1 (diags ++ p.2)
      | error err => rfl

/-- Inserting a no-op entry does not change the result of
`merge_json.py`'s loop. -/
theorem mergeJsonProcess_insert_noop (e : Entry)
    (he : ∀ plans, mergeJsonBody plans e = .ok (plans, []))
    (es1 es2 : List Entry) (plans : List Json) (diags : List String) :
    mergeJsonProcess plans diags (es1 ++ e :: es2) =
      mergeJsonProcess plans diags (es1 ++ es2) := by
  induction es1 generalizing plans diags with
  | nil => simp [mergeJsonProcess, he]
  | cons a es1 ih =>
      simp only [List.cons_append, mergeJsonProcess]
      cases mergeJsonBody plans a with
      | ok p => exact ih p.1 (diags ++ p.2)
      | error err => rfl

/-- A completed run of `merge.py`'s loop prints exactly one diagnostic per
invalid `.json` file, in order, and its accumulator is the one obtained by
processing only the successfully parsed `.json` files. -/
theorem mergeProcess_ok_spec (es : List Entry) :
    ∀ acc diags st, mergeProcess acc diags es = .ok st →
      st.diags = diags ++ mergeDiagsOf es ∧
      mergeProcess acc [] (validJsonFiles es) = .ok ⟨st.merged_data, []⟩ := by
  induction es with
  | nil =>
      intro acc diags st h
      simp only [mergeProcess, Except.ok.injEq] at h
      subst h
      simp [mergeDiagsOf, validJsonFiles, mergeProcess]
  | cons e es ih =>
      intro acc diags st h
      rcases e with ⟨n, c⟩ | n
      · cases hn : hasJsonExt n with
        | false =>
            simp only [mergeProcess, mergeBody, hn, Bool.false_eq_true,
              if_false, List.append_nil] at h
            obtain ⟨h1, h2⟩ := ih acc diags st h
            cases c with
            | invalid m =>
                exact ⟨by simpa [mergeDiagsOf, hn] using h1,
                       by simpa [validJsonFiles, hn] using h2⟩
            | parsed j =>
                exact ⟨by simpa [mergeDiagsOf, hn] using h1,
                       by simpa [validJsonFiles, hn] using h2⟩
        | true =>
            cases c with
            | invalid m =>
                simp only [mergeProcess, mergeBody, hn, if_true] at h
                obtain ⟨h1, h2⟩ := ih acc (diags ++ [skipMsg n m]) st h
                refine ⟨?_, ?_⟩
                · simpa [mergeDiagsOf, hn] using h1
                · simpa [validJsonFiles, hn] using h2
            | parsed j =>
                have hv : validJsonFiles (Entry.file n (.parsed j) :: es) =
                    Entry.file n (.parsed j) :: validJsonFiles es := by
                  simp [validJsonFiles, hn]
                have hd : mergeDiagsOf (Entry.file n (.parsed j) :: es) =
                    mergeDiagsOf es := by
                  simp [mergeDiagsOf]
                cases j with
                | obj kvs =>
                    simp only [mergeProcess, mergeBody, hn, if_true,
                      List.append_nil] at h
                    obtain ⟨h1, h2⟩ := ih _ diags st h
                    refine ⟨by simpa [hd] using h1, ?_⟩
                    rw [hv]
                    simpa [mergeProcess, mergeBody, hn] using h2
                | arr xs =>
                    simp only [mergeProcess, mergeBody, hn, if_true] at h
                    rcases hg : dictGet acc "merged_list" with _ | w
                    · rw [hg] at h
                      simp only [List.append_nil] at h
                      obtain ⟨h1, h2⟩ := ih _ diags st h
                      refine ⟨by simpa [hd] using h1, ?_⟩
                      rw [hv]
                      simpa [mergeProcess, mergeBody, hn, hg] using h2
                    · rw [hg] at h
                      cases w with
                      | arr ys =>
                          simp only [List.append_nil] at h
                          obtain ⟨h1, h2⟩ := ih _ diags st h
                          refine ⟨by simpa [hd] using h1, ?_⟩
                          rw [hv]
                          simpa [mergeProcess, mergeBody, hn, hg] using h2
                      | null => simp at h
                      | bool b => simp at h
                      | num m => simp at h
                      | str s => simp at h
                      | obj kvs => simp at h
                | null =>
                    simp only [mergeProcess, mergeBody, hn, if_true,
                      List.append_nil] at h
                    obtain ⟨h1, h2⟩ := ih _ diags st h
                    refine ⟨by simpa [hd] using h1, ?_⟩
                    rw [hv]
                    simpa [mergeProcess, mergeBody, hn] using h2
                | bool b =>
                    simp only [mergeProcess, mergeBody, hn, if_true,
                      List.append_nil] at h
                    obtain ⟨h1, h2⟩ := ih _ diags st h
                    refine ⟨by simpa [hd] using h1, ?_⟩
                    rw [hv]
                    simpa [mergeProcess, mergeBody, hn] using h2
                | num m =>
                    simp only [mergeProcess, mergeBody, hn, if_true,
                      List.append_nil] at h
                    obtain ⟨h1, h2⟩ := ih _ diags st h
                    refine ⟨by simpa [hd] using h1, ?_⟩
                    rw [hv]
                    simpa [mergeProcess, mergeBody, hn] using h2
                | str s =>
                    simp only [mergeProcess, mergeBody, hn, if_true,
                      List.append_nil] at h
                    obtain ⟨h1, h2⟩ := ih _ diags st h
                    refine ⟨by simpa [hd] using h1, ?_⟩
                    rw [hv]
                    simpa [mergeProcess, mergeBody, hn] using h2
      · cases hn : hasJsonExt n with
        | false =>
            simp only [mergeProcess, mergeBody, hn, Bool.false_eq_true,
              if_false, List.append_nil] at h
            obtain ⟨h1, h2⟩ := ih acc diags st h
            exact ⟨by simpa [mergeDiagsOf] using h1,
                   by simpa [validJsonFiles] using h2⟩
        | true =>
            simp [mergeProcess, mergeBody, hn] at h

/-- A completed run of `merge_json.py`'s loop appends exactly the parsed
values of the successfully parsed `.json` files, in listing order, and
prints one diagnostic per invalid `.json` file. -/
theorem mergeJsonProcess_ok_spec (es : List Entry) :
    ∀ plans diags st, mergeJsonProcess plans diags es = .ok st →
      st.all_plans = plans ++ mergeJsonParsedValues es := by
  induction es with
  | nil =>
      intro plans diags st h
      simp only [mergeJsonProcess, Except.ok.injEq] at h
      subst h
      simp [mergeJsonParsedValues]
  | cons e es ih =>
      intro plans diags st h
      rcases e with ⟨n, c⟩ | n
      · cases hn : hasJsonExt n with
        | false =>
            simp only [mergeJsonProcess, mergeJsonBody, hn, Bool.false_eq_true,
              if_false, List.append_nil] at h
            have h1 := ih plans diags st h
            cases c with
            | invalid m => simpa [mergeJsonParsedValues, hn] using h1
            | parsed j => simpa [mergeJsonParsedValues, hn] using h1
        | true =>
            cases c with
            | invalid m =>
                simp only [mergeJsonProcess, mergeJsonBody, hn, if_true] at h
                have h1 := ih plans (diags ++ [errMsg n m]) st h
                simpa [mergeJsonParsedValues, hn] using h1
            | parsed j =>
                simp only [mergeJsonProcess, mergeJsonBody, hn, if_true,
                  List.append_nil] at h
                have h1 := ih (plans ++ [j]) diags st h
                simpa [mergeJsonParsedValues, hn] using h1
      · cases hn : hasJsonExt n with
        | false =>
            simp only [mergeJsonProcess, mergeJsonBody, hn, Bool.false_eq_true,
              if_false, List.append_nil] at h
            simpa [mergeJsonParsedValues] using ih plans diags st h
        | true =>
            simp [mergeJsonProcess, mergeJsonBody, hn] at h

/-- A listing with no `.json`-named entry leaves both loops' states
unchanged. -/
theorem process_no_json (es : List Entry)
    (h : ∀ e ∈ es, hasJsonExt e.name = false) :
    ∀ acc diags plans,
      mergeProcess acc diags es = .ok ⟨acc, diags⟩ ∧
      mergeJsonProcess plans diags es = .ok ⟨plans, diags⟩ := by
  induction es with
  | nil => intro acc diags plans; exact ⟨rfl, rfl⟩
  | cons e es ih =>
      intro acc diags plans
      have he : hasJsonExt e.name = false := h e (by simp)
      have hes : ∀ e ∈ es, hasJsonExt e.name = false :=
        fun e hmem => h e (by simp [hmem])
      constructor
      · simp only [mergeProcess, mergeBody_not_json acc e he, List.append_nil]
        exact (ih hes acc diags plans).1
      · simp only [mergeJsonProcess, mergeJsonBody_not_json plans e he,
          List.append_nil]
        exact (ih hes acc diags plans).2

/-- Invariant of the reserved key: as long as no mapping-shaped `.json`
input contains `"merged_list"`, the reserved key tracks exactly the
elements collected from sequence-shaped inputs. -/
theorem mergeProcess_reserved_inv (es : List Entry)
    (hav : objsAvoidReservedKey es = true) :
    ∀ acc diags st cs,
      (dictGet acc "merged_list" = none ∧ cs = [] ∨
        dictGet acc "merged_list" = some (.arr cs)) →
      mergeProcess acc diags es = .ok st →
      (dictGet st.merged_data "merged_list" = none ∧ cs ++ seqElems es = [] ∨
        dictGet st.merged_data "merged_list" = some (.arr (cs ++ seqElems es))) := by
  induction es with
  | nil =>
      intro acc diags st cs hinv h
      simp only [mergeProcess, Except.ok.injEq] at h
      subst h
      simpa [seqElems] using hinv
  | cons e es ih =>
      intro acc diags st cs hinv h
      rcases e with ⟨n, c⟩ | n
      · cases hn : hasJsonExt n with
        | false =>
            simp only [mergeProcess, mergeBody, hn, Bool.false_eq_true,
              if_false, List.append_nil] at h
            have hav' : objsAvoidReservedKey es = true := by
              cases c with
              | invalid m => simpa [objsAvoidReservedKey] using hav
              | parsed j =>
                  cases j <;> simp_all [objsAvoidReservedKey, hn]
            have := ih hav' acc diags st cs hinv h
            cases c with
            | invalid m => simpa [seqElems, hn] using this
            | parsed j => cases j <;> simpa [seqElems, hn] using this
        | true =>
            cases c with
            | invalid m =>
                simp only [mergeProcess, mergeBody, hn, if_true] at h
                have hav' : objsAvoidReservedKey es = true := by
                  simpa [objsAvoidReservedKey] using hav
                have := ih hav' acc _ st cs hinv h
                simpa [seqElems] using this
            | parsed j =>
                cases j with
                | obj kvs =>
                    simp only [mergeProcess, mergeBody, hn, if_true,
                      List.append_nil] at h
                    have hkey : (dictGet kvs "merged_list").isNone = true := by
                      simp only [objsAvoidReservedKey, hn,
                        Bool.not_true, Bool.false_or, Bool.and_eq_true] at hav
                      exact hav.1
                    have hnot : "merged_list" ∉ kvs.map Prod.fst :=
                      dictGet_eq_none kvs "merged_list"
                        (Option.isNone_iff_eq_none.mp hkey)
                    have hsame : dictGet (dictUpdate acc kvs) "merged_list" =
                        dictGet acc "merged_list" :=
                      dictGet_dictUpdate_of_notMem acc kvs "merged_list" hnot
                    have hav' : objsAvoidReservedKey es = true := by
                      simp only [objsAvoidReservedKey, Bool.and_eq_true] at hav
                      exact hav.2
                    have hinv' :
                        dictGet (dictUpdate acc kvs) "merged_list" = none ∧ cs = [] ∨
                        dictGet (dictUpdate acc kvs) "merged_list" = some (.arr cs) := by
                      rw [hsame]; exact hinv
                    have := ih hav' _ diags st cs hinv' h
                    simpa [seqElems, hn] using this
                | arr xs =>
                    simp only [mergeProcess, mergeBody, hn, if_true] at h
                    have hav' : objsAvoidReservedKey es = true := by
                      simpa [objsAvoidReservedKey] using hav
                    rcases hinv with ⟨hnone, hcs⟩ | hsome
                    · rw [hnone] at h
                      simp only [List.append_nil] at h
                      have hinv' :
                          dictGet (dictSet acc "merged_list" (.arr xs))
                            "merged_list" = none ∧ xs = [] ∨
                          dictGet (dictSet acc "merged_list" (.arr xs))
                            "merged_list" = some (.arr xs) :=
                        Or.inr (dictGet_dictSet_self acc "merged_list" (.arr xs))
                      have := ih hav' _ diags st xs hinv' h
                      subst hcs
                      simpa [seqElems, hn] using this
                    · rw [hsome] at h
                      simp only [List.append_nil] at h
                      have hinv' :
                          dictGet (dictSet acc "merged_list" (.arr (cs ++ xs)))
                            "merged_list" = none ∧ cs ++ xs = [] ∨
                          dictGet (dictSet acc "merged_list" (.arr (cs ++ xs)))
                            "merged_list" = some (.arr (cs ++ xs)) :=
                        Or.inr (dictGet_dictSet_self acc "merged_list"
                          (.arr (cs ++ xs)))
                      have := ih hav' _ diags st (cs ++ xs) hinv' h
                      simpa [seqElems, hn, List.append_assoc] using this
                | null =>
                    simp only [mergeProcess, mergeBody, hn, if_true,
                      List.append_nil] at h
                    have hav' : objsAvoidReservedKey es = true := by
                      simpa [objsAvoidReservedKey] using hav
                    have := ih hav' acc diags st cs hinv h
                    simpa [seqElems] using this
                | bool b =>
                    simp only [mergeProcess, mergeBody, hn, if_true,
                      List.append_nil] at h
                    have hav' : objsAvoidReservedKey es = true := by
                      simpa [objsAvoidReservedKey] using hav
                    have := ih hav' acc diags st cs hinv h
                    simpa [seqElems] using this
                | num m =>
                    simp only [mergeProcess, mergeBody, hn, if_true,
                      List.append_nil] at h
                    have hav' : objsAvoidReservedKey es = true := by
                      simpa [objsAvoidReservedKey] using hav
                    have := ih hav' acc diags st cs hinv h
                    simpa [seqElems] using this
                | str s =>
                    simp only [mergeProcess, mergeBody, hn, if_true,
                      List.append_nil] at h
                    have hav' : objsAvoidReservedKey es = true := by
                      simpa [objsAvoidReservedKey] using hav
                    have := ih hav' acc diags st cs hinv h
                    simpa [seqElems] using this
      · cases hn : hasJsonExt n with
        | false =>
            simp only [mergeProcess, mergeBody, hn, Bool.false_eq_true,
              if_false, List.append_nil] at h
            have hav' : objsAvoidReservedKey es = true := by
              simpa [objsAvoidReservedKey] using hav
            have := ih hav' acc diags st cs hinv h
            simpa [seqElems] using this
        | true =>
            simp [mergeProcess, mergeBody, hn] at h

/-! ### The claims -/

/-- Claim C1: Key-Union overwrite law — when two mapping-shaped `.json`
files both contain the key `k` with different values, the accumulator's
final value for `k` is the one from the file processed last.  The run is
stated from an arbitrary accumulator, so the pair may sit at the end of
any larger listing; `d2` has unique keys, as every dict produced by
`json.load` does. -/
theorem key_union_overwrite (acc : List (String × Json)) (diags : List String)
    (n1 n2 k : String) (d1 d2 : List (String × Json)) (v1 v2 : Json)
    (h1 : hasJsonExt n1 = true) (h2 : hasJsonExt n2 = true)
    (hk1 : dictGet d1 k = some v1) (hk2 : dictGet d2 k = some v2)
    (hne : v1 ≠ v2) (hnd : (d2.map Prod.fst).Nodup) :
    mergeProcess acc diags
      [.file n1 (.parsed (.obj d1)), .file n2 (.parsed (.obj d2))] =
      .ok ⟨dictUpdate (dictUpdate acc d1) d2, diags⟩ ∧
    dictGet (dictUpdate (dictUpdate acc d1) d2) k = some v2 := by
  constructor
  · simp [mergeProcess, mergeBody, h1, h2]
  · exact dictGet_dictUpdate_of_get _ d2 k v2 hnd hk2

/-- Witness for C1: `a.json` maps `"k"` to `1`, `b.json` maps `"k"` to
`2`; the output's value for `"k"` is `2`, the later file's. -/
theorem key_union_overwrite_exec :
    mergeProcess [] []
      [.file "a.json" (.parsed (.obj [("k", .num 1)])),
       .file "b.json" (.parsed (.obj [("k", .num 2)]))] =
      .ok ⟨dictUpdate (dictUpdate [] [("k", .num 1)]) [("k", .num 2)], []⟩ ∧
    dictGet (dictUpdate (dictUpdate [] [("k", .num 1)]) [("k", .num 2)]) "k" =
      some (.num 2) :=
  key_union_overwrite [] [] "a.json" "b.json" "k" [("k", .num 1)]
    [("k", .num 2)] (.num 1) (.num 2) (by decide) (by decide) rfl rfl
    (by simp) (by simp)

/-- Claim C2: List-concatenation law — two sequence-shaped `.json` files
with `N` and `M` elements leave the reserved key `"merged_list"` holding
their concatenation, of length `N + M`, in file-processing order; the
first file finds the key absent and creates it. -/
theorem list_concatenation (n1 n2 : String) (xs ys : List Json)
    (h1 : hasJsonExt n1 = true) (h2 : hasJsonExt n2 = true) :
    mergeRun [.file n1 (.parsed (.arr xs)), .file n2 (.parsed (.arr ys))] =
      .ok ⟨[("merged_list", .arr (xs ++ ys))], []⟩ ∧
    (xs ++ ys).length = xs.length + ys.length ∧
    mergeRun [.file n1 (.parsed (.arr xs))] =
      .ok ⟨[("merged_list", .arr xs)], []⟩ := by
  refine ⟨?_, List.length_append xs ys, ?_⟩
  · simp [mergeRun, mergeProcess, mergeBody, h1, h2, dictGet, dictSet]
  · simp [mergeRun, mergeProcess, mergeBody, h1, dictGet, dictSet]

/-- Witness for C2: `[1]` and `[2, 3]` concatenate to `[1, 2, 3]`,
of length `1 + 2`. -/
theorem list_concatenation_exec :
    mergeRun [.file "a.json" (.parsed (.arr [.num 1])),
      .file "b.json" (.parsed (.arr [.num 2, .num 3]))] =
      .ok ⟨[("merged_list", .arr ([.num 1] ++ [.num 2, .num 3]))], []⟩ ∧
    ([.num 1] ++ [.num 2, .num 3] : List Json).length =
      [Json.num 1].length + [Json.num 2, Json.num 3].length ∧
    mergeRun [.file "a.json" (.parsed (.arr [.num 1]))] =
      .ok ⟨[("merged_list", .arr [.num 1])], []⟩ :=
  list_concatenation "a.json" "b.json" [.num 1] [.num 2, .num 3]
    (by decide) (by decide)

/-- Claim C3 (amended): the claim as stated fails — see
`skip_on_malformed_cex` — because a run can abort on an uncaught
exception even though the directory matches the claim's premise.  For
every run that does complete, the diagnostics are exactly one line per
invalid `.json` file, naming the file and the parse error, in order,
and the final accumulator is the one obtained from the successfully
parsed `.json` files alone, each invalid file being skipped without
touching the accumulator. -/
theorem skip_on_malformed (es : List Entry) (st : MergeState)
    (h : mergeRun es = .ok st) :
    st.diags = mergeDiagsOf es ∧
    mergeProcess [] [] (validJsonFiles es) = .ok ⟨st.merged_data, []⟩ := by
  have h2 := mergeProcess_ok_spec es [] [] st h
  simpa using h2

/-- Counterexample for C3 as stated: a directory with two valid `.json`
files and one invalid one on which the Key-Union aggregator does not
complete: the first file sets `"merged_list"` to a number, the second is
sequence-shaped, so `merged_data.setdefault("merged_list", []).extend(...)`
raises an uncaught `AttributeError`; the invalid file is never reached,
no diagnostic is printed, and no output is written. -/
theorem skip_on_malformed_cex :
    mergeRun [.file "a.json" (.parsed (.obj [("merged_list", .num 1)])),
      .file "b.json" (.parsed (.arr [.num 2])),
      .file "c.json" (.invalid "Expecting value: line 1 column 1 (char 0)")] =
      .error .attributeError := rfl

/-- Witness for C3 (amended): three valid files and one invalid file;
the run completes with exactly one diagnostic naming `bad.json` and an
accumulator merging exactly the three valid files. -/
theorem skip_on_malformed_exec :
    (["Skipping bad.json, invalid JSON: Expecting value: line 1 column 1 (char 0)"]
      : List String) =
      mergeDiagsOf [.file "a.json" (.parsed (.obj [("x", .num 1)])),
        .file "bad.json" (.invalid "Expecting value: line 1 column 1 (char 0)"),
        .file "b.json" (.parsed (.obj [("y", .num 2)])),
        .file "c.json" (.parsed (.obj [("z", .num 3)]))] ∧
    mergeProcess [] [] (validJsonFiles
      [.file "a.json" (.parsed (.obj [("x", .num 1)])),
       .file "bad.json" (.invalid "Expecting value: line 1 column 1 (char 0)"),
       .file "b.json" (.parsed (.obj [("y", .num 2)])),
       .file "c.json" (.parsed (.obj [("z", .num 3)]))]) =
      .ok ⟨[("x", .num 1), ("y", .num 2), ("z", .num 3)], []⟩ :=
  skip_on_malformed
    [.file "a.json" (.parsed (.obj [("x", .num 1)])),
     .file "bad.json" (.invalid "Expecting value: line 1 column 1 (char 0)"),
     .file "b.json" (.parsed (.obj [("y", .num 2)])),
     .file "c.json" (.parsed (.obj [("z", .num 3)]))]
    ⟨[("x", .num 1), ("y", .num 2), ("z", .num 3)],
     ["Skipping bad.json, invalid JSON: Expecting value: line 1 column 1 (char 0)"]⟩
    rfl

/-- Claim C4: for every completed run of the List-Collection aggregator,
the output array holds exactly one whole parsed value per successfully
parsed `.json` file, in listing order, and the completion message's
count `len(all_plans)` equals the number of those files. -/
theorem list_collection_count (es : List Entry) (st : MergeJsonState)
    (h : mergeJsonRun es = .ok st) :
    st.all_plans = mergeJsonParsedValues es ∧
    mergeJsonCount st = (mergeJsonParsedValues es).length := by
  have h1 := mergeJsonProcess_ok_spec es [] [] st h
  simp only [List.nil_append] at h1
  exact ⟨h1, by rw [mergeJsonCount, h1]⟩

/-- Witness for C4: five `.json` files of which one fails to parse; the
output array has the four parsed values and the reported count is their
number, `4`. -/
theorem list_collection_count_exec :
    ([.num 1, .num 2, .num 3, .num 4] : List Json) =
      mergeJsonParsedValues
        [.file "p1.json" (.parsed (.num 1)),
         .file "p2.json" (.parsed (.num 2)),
         .file "bad.json" (.invalid "Expecting value: line 1 column 1 (char 0)"),
         .file "p3.json" (.parsed (.num 3)),
         .file "p4.json" (.parsed (.num 4))] ∧
    mergeJsonCount ⟨[.num 1, .num 2, .num 3, .num 4],
        ["❌ Error in bad.json: Expecting value: line 1 column 1 (char 0)"]⟩ =
      (mergeJsonParsedValues
        [.file "p1.json" (.parsed (.num 1)),
         .file "p2.json" (.parsed (.num 2)),
         .file "bad.json" (.invalid "Expecting value: line 1 column 1 (char 0)"),
         .file "p3.json" (.parsed (.num 3)),
         .file "p4.json" (.parsed (.num 4))]).length :=
  list_collection_count
    [.file "p1.json" (.parsed (.num 1)),
     .file "p2.json" (.parsed (.num 2)),
     .file "bad.json" (.invalid "Expecting value: line 1 column 1 (char 0)"),
     .file "p3.json" (.parsed (.num 3)),
     .file "p4.json" (.parsed (.num 4))]
    ⟨[.num 1, .num 2, .num 3, .num 4],
     ["❌ Error in bad.json: Expecting value: line 1 column 1 (char 0)"]⟩
    rfl

/-- Claim C5 (amended): the claim as stated fails — a mapping-shaped
input containing `"merged_list"` overwrites the reserved key (see
`reserved_key_invariant_cex`).  Provided no mapping-shaped `.json` input
contains the key `"merged_list"`, then at every point of a run (i.e.
after any listing `p` of entries, in particular any initial segment of a
larger listing) the reserved key, when present, holds exactly the
sequence of elements collected from the sequence-shaped inputs so far. -/
theorem reserved_key_invariant (es p q : List Entry) (st : MergeState)
    (hsplit : es = p ++ q) (hav : objsAvoidReservedKey p = true)
    (h : mergeRun p = .ok st) :
    dictGet st.merged_data "merged_list" = none ∨
    dictGet st.merged_data "merged_list" = some (.arr (seqElems p)) := by
  have h2 := mergeProcess_reserved_inv p hav [] [] st []
    (Or.inl ⟨rfl, rfl⟩) h
  rcases h2 with ⟨hnone, _⟩ | hsome
  · exact Or.inl hnone
  · exact Or.inr (by simpa using hsome)

/-- Counterexample for C5 as stated: after a sequence-shaped file sets
`"merged_list"` to `[1]`, a mapping-shaped file containing the key
`"merged_list"` replaces it with the string `"oops"`, which is not a
sequence — `merged_data.update` does not protect the reserved key. -/
theorem reserved_key_invariant_cex :
    mergeRun [.file "a.json" (.parsed (.arr [.num 1])),
      .file "b.json" (.parsed (.obj [("merged_list", .str "oops")]))] =
      .ok ⟨[("merged_list", .str "oops")], []⟩ ∧
    Json.isArr (.str "oops") = false := ⟨rfl, rfl⟩

/-- Witness for C5 (amended): after the initial segment
`[a.json ↦ [1]]` of a two-file listing whose mapping-shaped file avoids
the reserved key, `"merged_list"` holds exactly the collected `[1]`. -/
theorem reserved_key_invariant_exec :
    dictGet (MergeState.merged_data ⟨[("merged_list", .arr [.num 1])], []⟩)
        "merged_list" = none ∨
    dictGet (MergeState.merged_data ⟨[("merged_list", .arr [.num 1])], []⟩)
        "merged_list" =
      some (.arr (seqElems [.file "a.json" (.parsed (.arr [.num 1]))])) :=
  reserved_key_invariant
    [.file "a.json" (.parsed (.arr [.num 1])),
     .file "b.json" (.parsed (.obj [("x", .num 2)]))]
    [.file "a.json" (.parsed (.arr [.num 1]))]
    [.file "b.json" (.parsed (.obj [("x", .num 2)]))]
    ⟨[("merged_list", .arr [.num 1])], []⟩
    rfl (by decide) rfl

/-- Claim C6 (amended): the claim as stated fails — see
`extension_filtering_cex` — because a subdirectory whose name ends in
`".json"` passes the filter, is opened, and aborts the run with an
uncaught `IsADirectoryError`.  What holds: both aggregators skip, with
no effect at all, every entry (file or subdirectory) whose name does not
end in the literal, case-sensitive suffix `".json"`, and both abort on a
subdirectory whose name does. -/
theorem extension_filtering (acc : List (String × Json)) (plans : List Json)
    (e : Entry) (n : String)
    (h1 : hasJsonExt e.name = false) (h2 : hasJsonExt n = true) :
    mergeBody acc e = .ok (acc, []) ∧
    mergeJsonBody plans e = .ok (plans, []) ∧
    mergeBody acc (.dir n) = .error (.isADirectoryError n) ∧
    mergeJsonBody plans (.dir n) = .error (.isADirectoryError n) :=
  ⟨mergeBody_not_json acc e h1, mergeJsonBody_not_json plans e h1,
   by simp [mergeBody, h2], by simp [mergeJsonBody, h2]⟩

/-- Counterexample for C6 as stated: a subdirectory named `sub.json` is
not ignored — both aggregators open it and abort. -/
theorem extension_filtering_cex :
    mergeRun [.dir "sub.json"] = .error (.isADirectoryError "sub.json") ∧
    mergeJsonRun [.dir "sub.json"] = .error (.isADirectoryError "sub.json") :=
  ⟨rfl, rfl⟩

/-- Witness for C6 (amended): a subdirectory named `sub` is skipped by
both loops; a subdirectory named `sub.json` aborts both. -/
theorem extension_filtering_exec :
    mergeBody [] (.dir "sub") = .ok ([], []) ∧
    mergeJsonBody [] (.dir "sub") = .ok ([], []) ∧
    mergeBody [] (.dir "sub.json") = .error (.isADirectoryError "sub.json") ∧
    mergeJsonBody [] (.dir "sub.json") = .error (.isADirectoryError "sub.json") :=
  extension_filtering [] [] (.dir "sub") "sub.json" (by decide) (by decide)

/-- Claim C7: a `.json` file whose top-level value is a scalar (string,
number, boolean or null) is silently dropped by the Key-Union
aggregator: no branch handles it, the accumulator and diagnostics are
untouched, and the loop continues with the remaining entries. -/
theorem scalar_silent_drop (acc : List (String × Json)) (diags : List String)
    (n : String) (j : Json) (es : List Entry)
    (hn : hasJsonExt n = true) (hs : j.isScalar = true) :
    mergeBody acc (.file n (.parsed j)) = .ok (acc, []) ∧
    mergeProcess acc diags (.file n (.parsed j) :: es) =
      mergeProcess acc diags es := by
  cases j <;> simp_all [Json.isScalar, mergeBody, mergeProcess]

/-- Witness for C7: a `.json` file holding the bare string `"hello"` is
a no-op for the accumulator and produces no diagnostic. -/
theorem scalar_silent_drop_exec :
    mergeBody [("a", .num 1)] (.file "s.json" (.parsed (.str "hello"))) =
      .ok ([("a", .num 1)], []) ∧
    mergeProcess [("a", .num 1)] []
        [.file "s.json" (.parsed (.str "hello"))] =
      mergeProcess [("a", .num 1)] [] [] :=
  scalar_silent_drop [("a", .num 1)] [] "s.json" (.str "hello") []
    (by decide) (by decide)

/-- Claim C8: a file named `notes.txt` (whatever it contains) and a file
named `plan.JSON` (uppercase extension) are never read or merged by
either aggregator: inserting either anywhere in the listing leaves the
whole run of both loops unchanged. -/
theorem uppercase_extension_excluded (acc : List (String × Json))
    (plans : List Json) (diags : List String) (c c' : Content)
    (es1 es2 : List Entry) :
    mergeProcess acc diags (es1 ++ .file "notes.txt" c :: es2) =
      mergeProcess acc diags (es1 ++ es2) ∧
    mergeProcess acc diags (es1 ++ .file "plan.JSON" c' :: es2) =
      mergeProcess acc diags (es1 ++ es2) ∧
    mergeJsonProcess plans diags (es1 ++ .file "notes.txt" c :: es2) =
      mergeJsonProcess plans diags (es1 ++ es2) ∧
    mergeJsonProcess plans diags (es1 ++ .file "plan.JSON" c' :: es2) =
      mergeJsonProcess plans diags (es1 ++ es2) :=
  ⟨mergeProcess_insert_noop (.file "notes.txt" c)
      (fun a => mergeBody_not_json a _
        (show hasJsonExt "notes.txt" = false by decide)) es1 es2 acc diags,
   mergeProcess_insert_noop (.file "plan.JSON" c')
      (fun a => mergeBody_not_json a _
        (show hasJsonExt "plan.JSON" = false by decide)) es1 es2 acc diags,
   mergeJsonProcess_insert_noop (.file "notes.txt" c)
      (fun p => mergeJsonBody_not_json p _
        (show hasJsonExt "notes.txt" = false by decide)) es1 es2 plans diags,
   mergeJsonProcess_insert_noop (.file "plan.JSON" c')
      (fun p => mergeJsonBody_not_json p _
        (show hasJsonExt "plan.JSON" = false by decide)) es1 es2 plans diags⟩

/-- Claim C9: over a directory with zero `.json`-named entries, the
Key-Union aggregator completes with an empty accumulator and writes
`{}`, and the List-Collection aggregator completes with an empty list,
writes `[]`, and reports a merge count of `0`. -/
theorem empty_directory (es : List Entry)
    (h : ∀ e ∈ es, hasJsonExt e.name = false) :
    mergeRun es = .ok ⟨[], []⟩ ∧ mergeOutputFile es = some "{}" ∧
    mergeJsonRun es = .ok ⟨[], []⟩ ∧ mergeJsonOutputFile es = some "[]" ∧
    mergeJsonCount ⟨[], []⟩ = 0 := by
  obtain ⟨hm, hj⟩ := process_no_json es h [] [] []
  have hm' : mergeRun es = .ok ⟨[], []⟩ := hm
  have hj' : mergeJsonRun es = .ok ⟨[], []⟩ := hj
  refine ⟨hm', ?_, hj', ?_, rfl⟩
  · simp [mergeOutputFile, hm', dumps]
  · simp [mergeJsonOutputFile, hj', dumps]

/-- Witness for C9: a directory holding only `readme.txt` and a
subdirectory `archive` yields `{}`, `[]`, and count `0`. -/
theorem empty_directory_exec :
    mergeRun [.file "readme.txt" (.invalid "Expecting value: line 1 column 1 (char 0)"),
      .dir "archive"] = .ok ⟨[], []⟩ ∧
    mergeOutputFile [.file "readme.txt" (.invalid "Expecting value: line 1 column 1 (char 0)"),
      .dir "archive"] = some "{}" ∧
    mergeJsonRun [.file "readme.txt" (.invalid "Expecting value: line 1 column 1 (char 0)"),
      .dir "archive"] = .ok ⟨[], []⟩ ∧
    mergeJsonOutputFile [.file "readme.txt" (.invalid "Expecting value: line 1 column 1 (char 0)"),
      .dir "archive"] = some "[]" ∧
    mergeJsonCount ⟨[], []⟩ = 0 :=
  empty_directory
    [.file "readme.txt" (.invalid "Expecting value: line 1 column 1 (char 0)"),
     .dir "archive"]
    (by decide)

/-- Claim C10: both aggregators are deterministic functions of the
directory state — the entries, their listing order, and their contents.
Two runs over equal directory states produce byte-identical output
files (and equally absent ones when the run aborts before writing). -/
theorem rerun_deterministic (d1 d2 : List Entry) (h : d1 = d2) :
    mergeOutputFile d1 = mergeOutputFile d2 ∧
    mergeJsonOutputFile d1 = mergeJsonOutputFile d2 := by
  subst h
  exact ⟨rfl, rfl⟩

/-- Witness for C10: re-running on an unchanged one-file directory
reproduces the same bytes. -/
theorem rerun_deterministic_exec :
    mergeOutputFile [.file "a.json" (.parsed (.obj [("k", .num 1)]))] =
      mergeOutputFile [.file "a.json" (.parsed (.obj [("k", .num 1)]))] ∧
    mergeJsonOutputFile [.file "a.json" (.parsed (.obj [("k", .num 1)]))] =
      mergeJsonOutputFile [.file "a.json" (.parsed (.obj [("k", .num 1)]))] :=
  rerun_deterministic [.file "a.json" (.parsed (.obj [("k", .num 1)]))]
    [.file "a.json" (.parsed (.obj [("k", .num 1)]))] rfl

